import Mathlib

/-!
Verification of the snake-game simulation core (`src/main.rs`): the `World`
state machine (`new`, `input`, `update`), the linear-congruential generator
`Rng`, and the fixed-rate `Interval` scheduler, together with the reachability
invariants of the game state.
-/

set_option maxRecDepth 40000

/-- Grid width and height in cells, the constant `FIELD_SIZE = 20` of the source. -/
def FIELD_SIZE : Nat := 20

/-- A 2d point or direction, `Vector2d` of the source (`i32` coordinates). -/
structure Vector2d where
  x : Int
  y : Int
deriving DecidableEq

/-- Componentwise addition, the `Add` impl of the source. -/
instance : Add Vector2d :=
  ⟨fun a b => ⟨a.x + b.x, a.y + b.y⟩⟩

/-- The linear-congruential generator `Rng` of the source; `last` holds its
`u32` state. -/
structure Rng where
  last : Nat
deriving DecidableEq

/-- `Rng::MODULE = 1 << 31`. -/
def Rng.MODULE : Nat := 2 ^ 31

/-- `Rng::new(seed)`; the Rust argument is a `u32`, hence the reduction mod `2^32`. -/
def Rng.new (seed : Nat) : Rng := ⟨seed % 2 ^ 32⟩

/-- `Rng::gen`: `wrapping_mul` and `wrapping_add` on `u32` (arithmetic mod `2^32`)
followed by `% MODULE`; the new state is stored and returned. -/
def Rng.gen (r : Rng) : Nat × Rng :=
  let n := (1103515245 * r.last % 2 ^ 32 + 12345) % 2 ^ 32 % Rng.MODULE
  (n, ⟨n⟩)

/-- `World::random_pos`: one draw reduced `% FIELD_SIZE`, cast to `i32`. -/
def random_pos (r : Rng) : Int × Rng :=
  let p := r.gen
  ((p.1 % FIELD_SIZE : Nat), p.2)

/-- `World::create_fruit`: draw a candidate cell, redrawing while it hits the
snake head or a body cell.  The source loops unboundedly; `fuel` bounds the
number of redraws here, with `none` modelling non-termination of the loop. -/
def create_fruit : Nat → Vector2d → List Vector2d → Rng → Option (Vector2d × Rng)
  | 0, _, _, _ => none
  | fuel + 1, head, body, r =>
    let px := random_pos r
    let py := random_pos px.2
    let cand : Vector2d := ⟨px.1, py.1⟩
    if cand = head ∨ cand ∈ body then create_fruit fuel head body py.2
    else some (cand, py.2)

/-- The virtual key codes `World::input` inspects; `keyOther` stands for every
other key (which leaves the heading unchanged). -/
inductive Key where
  | keyUp
  | keyW
  | keyLeft
  | keyA
  | keyDown
  | keyS
  | keyRight
  | keyD
  | keyOther
deriving DecidableEq

/-- `World`: snake head, body segments ordered nearest-to-head first, fruit
cell, heading, and the owned generator. -/
structure World where
  snake_head : Vector2d
  snake_body : List Vector2d
  fruit : Vector2d
  dir : Vector2d
  rng : Rng
deriving DecidableEq

/-- `World::new`: head at the field centre (`FIELD_SIZE as i32 / 2`), empty
body, heading `(0,0)`, then an initial fruit from `create_fruit`. -/
def World.new (fuel : Nat) (rng : Rng) : Option World :=
  let head : Vector2d := ⟨(FIELD_SIZE : Int) / 2, (FIELD_SIZE : Int) / 2⟩
  match create_fruit fuel head [] rng with
  | none => none
  | some fr =>
    some { snake_head := head, snake_body := [], fruit := fr.1, dir := ⟨0, 0⟩, rng := fr.2 }

/-- `World::input`: map a key to a unit direction vector, overwriting `dir`;
unrecognized keys leave `dir` unchanged. -/
def World.input (w : World) (key : Key) : World :=
  { w with dir :=
      match key with
      | Key.keyUp => ⟨0, -1⟩
      | Key.keyW => ⟨0, -1⟩
      | Key.keyLeft => ⟨-1, 0⟩
      | Key.keyA => ⟨-1, 0⟩
      | Key.keyDown => ⟨0, 1⟩
      | Key.keyS => ⟨0, 1⟩
      | Key.keyRight => ⟨1, 0⟩
      | Key.keyD => ⟨1, 0⟩
      | Key.keyOther => w.dir }

/-- `Vec::rotate_right(1)`: the last element moves to the front. -/
def rotateRight1 {α : Type} (l : List α) : List α :=
  l.drop (l.length - 1) ++ l.take (l.length - 1)

/-- The body shift of `World::update`: if the body is non-empty, rotate it right
by one and overwrite the front with the pre-move head. -/
def shiftedBody (w : World) : List Vector2d :=
  if w.snake_body = [] then w.snake_body
  else (rotateRight1 w.snake_body).set 0 w.snake_head

/-- Membership of the field `[0, FIELD_SIZE) × [0, FIELD_SIZE)`, the two
`(0..FIELD_SIZE as i32).contains` checks of the source. -/
def inField (v : Vector2d) : Prop :=
  (0 ≤ v.x ∧ v.x < (FIELD_SIZE : Int)) ∧ (0 ≤ v.y ∧ v.y < (FIELD_SIZE : Int))

instance (v : Vector2d) : Decidable (inField v) :=
  inferInstanceAs (Decidable ((0 ≤ v.x ∧ v.x < (FIELD_SIZE : Int)) ∧
    (0 ≤ v.y ∧ v.y < (FIELD_SIZE : Int))))

/-- `World::update` (one `advance_tick`).  Returns the updated world, the
redraw flag the Rust function returns, and whether `ControlFlow::Exit` was
requested (the termination signal); `none` models divergence of the
fruit-placement loop.  When the post-move head hits the fruit, the shifted body
is extended by one segment behind its tail (behind the head if empty) and a new
fruit is drawn before the boundary/self-collision check runs on the final body. -/
def World.update (w : World) (fuel : Nat) : Option (World × Bool × Bool) :=
  if w.dir = (⟨0, 0⟩ : Vector2d) then some (w, false, false) else
  let body1 := shiftedBody w
  let head1 := w.snake_head + w.dir
  if head1 = w.fruit then
    let body2 := body1 ++ [body1.getLast?.getD head1 + ⟨-w.dir.x, -w.dir.y⟩]
    match create_fruit fuel head1 body2 w.rng with
    | none => none
    | some fr =>
      some ({ w with snake_head := head1, snake_body := body2, fruit := fr.1, rng := fr.2 },
        true, decide (¬ inField head1 ∨ head1 ∈ body2))
  else
    some ({ w with snake_head := head1, snake_body := body1 },
      true, decide (¬ inField head1 ∨ head1 ∈ body1))

/-- An external stimulus: a key press routed to `World::input`, or a scheduler
tick routed to `World::update`. -/
inductive Ev where
  | key (k : Key)
  | tick
deriving DecidableEq

/-- One event processed against the world (`none` when a tick diverges in fruit
placement). -/
def step (fuel : Nat) (w : World) : Ev → Option World
  | Ev.key k => some (w.input k)
  | Ev.tick => (w.update fuel).map (fun p => p.1)

/-- Process a whole event list. -/
def run (fuel : Nat) : World → List Ev → Option World
  | w, [] => some w
  | w, e :: es => (step fuel w e).bind (fun w' => run fuel w' es)

/-- Run a whole session from a seed. -/
def runFrom (seed fuel : Nat) (evs : List Ev) : Option World :=
  (World.new fuel (Rng.new seed)).bind (fun w0 => run fuel w0 evs)

/-- A state reachable from `World::new` by some sequence of `input` and
`update` calls. -/
def Reachable (w : World) : Prop :=
  ∃ seed fuel evs, runFrom seed fuel evs = some w

/-- One event, refusing ticks on which `update` signals termination. -/
def stepAlive (fuel : Nat) (w : World) : Ev → Option World
  | Ev.key k => some (w.input k)
  | Ev.tick =>
    match w.update fuel with
    | none => none
    | some p => if p.2.2 then none else some p.1

/-- Process a whole event list, refusing terminating ticks. -/
def runAlive (fuel : Nat) : World → List Ev → Option World
  | w, [] => some w
  | w, e :: es => (stepAlive fuel w e).bind (fun w' => runAlive fuel w' es)

/-- Run a whole session from a seed with no tick signalling termination. -/
def runAliveFrom (seed fuel : Nat) (evs : List Ev) : Option World :=
  (World.new fuel (Rng.new seed)).bind (fun w0 => runAlive fuel w0 evs)

/-- A state reachable from `World::new` while the game is still alive: no
`update` call along the way has signalled termination. -/
def AliveReachable (w : World) : Prop :=
  ∃ seed fuel evs, runAliveFrom seed fuel evs = some w

/-- The (head, body, fruit) observation after each processed event. -/
def traj (fuel : Nat) :
    World → List Ev → Option (List (Vector2d × List Vector2d × Vector2d))
  | _, [] => some []
  | w, e :: es =>
    (step fuel w e).bind (fun w' =>
      (traj fuel w' es).map (fun ts => (w'.snake_head, w'.snake_body, w'.fruit) :: ts))

/-- The next `n` values drawn from the generator. -/
def genSeq : Nat → Rng → List Nat
  | 0, _ => []
  | n + 1, r => (r.gen).1 :: genSeq n (r.gen).2

/-- Reference body shift, stated from the spec: the first body segment takes
the pre-tick head position and every later segment takes the position the
segment ahead of it occupied before the tick; the pre-tick tail position is
dropped. -/
def followLeaderShift (head : Vector2d) (body : List Vector2d) : List Vector2d :=
  (head :: body).take body.length

namespace Snake

/-- `Interval`, with timestamps and durations in nanoseconds (namespaced to
avoid the clash with Mathlib's order intervals). -/
structure Interval where
  last : Nat
  frame_duration : Nat
deriving DecidableEq

/-- `Duration::from_secs_f64(1.0 / FPS as f64)` for `FPS = 10`, in nanoseconds:
`1f64 / 10f64` is the IEEE double nearest to 1/10, namely
0.1000000000000000055511151231257827021181583404541015625, and `from_secs_f64`
rounds to the nearest nanosecond, which gives exactly `10^8` ns. -/
def fpsFrameNanos : Nat := 100000000

/-- `Interval::new(FPS)` at creation instant `now`. -/
def Interval.new (now : Nat) : Interval :=
  { last := now, frame_duration := fpsFrameNanos }

/-- `Interval::elapsed` polled at instant `now`: the `Bool` is the Due/NotDue
decision (`since_last > frame_duration`, strictly), the `Interval` the updated
receiver (on Due, `last` is reset to now), and the `Option Nat` the
`ControlFlow::WaitUntil` wake instant requested on NotDue. -/
def Interval.elapsed (i : Interval) (now : Nat) : Bool × Interval × Option Nat :=
  let since_last := now - i.last
  if i.frame_duration < since_last then (true, { i with last := now }, none)
  else (false, i, some (now + (i.frame_duration - since_last)))

end Snake

/-- Placeholder world used with `Option.getD` when extracting concrete run
results. -/
def wDef : World :=
  { snake_head := ⟨0, 0⟩, snake_body := [], fruit := ⟨0, 0⟩, dir := ⟨0, 0⟩, rng := ⟨0⟩ }

/-- The fruit never coincides with the head or a body cell and lies inside the
field. -/
def FruitInv (w : World) : Prop :=
  w.fruit ≠ w.snake_head ∧ w.fruit ∉ w.snake_body ∧ inField w.fruit

/-- While the game is alive: the head is in the field and misses the body, and
all body cells except possibly the last (the most recently appended growth
segment) are in the field and pairwise distinct. -/
def AliveInv (w : World) : Prop :=
  inField w.snake_head ∧ w.snake_head ∉ w.snake_body ∧
  (∀ v ∈ w.snake_body.dropLast, inField v) ∧ w.snake_body.dropLast.Nodup

/-- The state reached from seed 0 with no events, used as a concrete witness. -/
def w0c : World := (runFrom 0 1000 []).getD wDef

/-- Events of a session (seed 2) that eats a fruit, runs along the bottom row
and turns up onto a fruit at row 18: the appended tail segment lands at
`(13, 20)`, outside the field, while the game stays alive. -/
def evsOOB : List Ev :=
  [Ev.key Key.keyLeft, Ev.tick, Ev.tick, Ev.tick,
   Ev.key Key.keyDown, Ev.tick, Ev.tick,
   Ev.key Key.keyRight, Ev.tick, Ev.tick, Ev.tick, Ev.tick, Ev.tick,
   Ev.key Key.keyDown, Ev.tick, Ev.tick, Ev.tick, Ev.tick, Ev.tick, Ev.tick, Ev.tick,
   Ev.key Key.keyRight, Ev.tick,
   Ev.key Key.keyUp, Ev.tick]

/-- Events of a session (seed 1) that eats three fruits and then takes a tight
turn onto the fourth: the appended tail segment coincides with the body cell
`(13, 6)`, so the body cells are not pairwise distinct, while the game stays
alive. -/
def evsDup : List Ev :=
  [Ev.key Key.keyDown, Ev.tick, Ev.tick, Ev.tick, Ev.tick, Ev.tick,
   Ev.key Key.keyLeft, Ev.tick, Ev.tick, Ev.tick, Ev.tick, Ev.tick, Ev.tick,
   Ev.key Key.keyUp, Ev.tick, Ev.tick, Ev.tick, Ev.tick, Ev.tick, Ev.tick, Ev.tick,
   Ev.tick, Ev.tick, Ev.tick, Ev.tick, Ev.tick, Ev.tick, Ev.tick,
   Ev.key Key.keyRight, Ev.tick, Ev.tick, Ev.tick, Ev.tick, Ev.tick, Ev.tick, Ev.tick,
   Ev.tick, Ev.tick, Ev.tick,
   Ev.key Key.keyDown, Ev.tick, Ev.tick, Ev.tick, Ev.tick, Ev.tick, Ev.tick, Ev.tick,
   Ev.tick, Ev.tick, Ev.tick, Ev.tick, Ev.tick, Ev.tick, Ev.tick, Ev.tick, Ev.tick,
   Ev.tick, Ev.tick,
   Ev.key Key.keyLeft, Ev.tick, Ev.tick, Ev.tick, Ev.tick,
   Ev.key Key.keyUp, Ev.tick, Ev.tick, Ev.tick, Ev.tick, Ev.tick, Ev.tick, Ev.tick,
   Ev.tick, Ev.tick, Ev.tick, Ev.tick, Ev.tick, Ev.tick,
   Ev.key Key.keyRight, Ev.tick, Ev.tick, Ev.tick,
   Ev.key Key.keyUp, Ev.tick,
   Ev.key Key.keyLeft, Ev.tick]

/-- The alive state with an out-of-field body cell. -/
def cOOB : World := (runAliveFrom 2 1000 evsOOB).getD wDef

/-- The alive state with duplicate body cells. -/
def cDup : World := (runAliveFrom 1 1000 evsDup).getD wDef

/-- Events of the seed-2 session up to the state one tick before it eats the
first fruit. -/
def evsPre3 : List Ev :=
  [Ev.key Key.keyLeft, Ev.tick, Ev.tick, Ev.tick, Ev.key Key.keyDown, Ev.tick]

/-- A concrete reachable state about to eat a fruit. -/
def w3 : World := (runFrom 2 1000 evsPre3).getD wDef

/-- Events of the seed-2 session up to a state with a non-empty body whose
next tick moves without growth. -/
def evsPre6 : List Ev :=
  [Ev.key Key.keyLeft, Ev.tick, Ev.tick, Ev.tick, Ev.key Key.keyDown, Ev.tick,
   Ev.tick, Ev.key Key.keyRight]

/-- A concrete reachable state with non-empty body about to tick without
growth. -/
def w6 : World := (runFrom 2 1000 evsPre6).getD wDef

/-- Events of the seed-2 session up to a moving state used for the C7 witness. -/
def evsPre7 : List Ev :=
  [Ev.key Key.keyLeft, Ev.tick, Ev.tick, Ev.tick, Ev.key Key.keyDown, Ev.tick,
   Ev.tick, Ev.key Key.keyRight, Ev.tick]

/-- A concrete reachable moving state for the C7 witness. -/
def w7 : World := (runFrom 2 1000 evsPre7).getD wDef

example : (Rng.new 42).gen.1 = 1250496027 := by decide

example : genSeq 3 (Rng.new 42) = [1250496027, 1116302264, 1000676753] := by decide

example : runFrom 0 1000 [] =
    some { snake_head := ⟨10, 10⟩, snake_body := [], fruit := ⟨5, 6⟩,
           dir := ⟨0, 0⟩, rng := ⟨1406932606⟩ } := by decide

/-! ### Helper lemmas about the embedded operations -/

theorem Vector2d.add_def (a b : Vector2d) : a + b = ⟨a.x + b.x, a.y + b.y⟩ := rfl

theorem add_dir_sub_dir (a d : Vector2d) : a + d + ⟨-d.x, -d.y⟩ = a := by
  cases a
  cases d
  simp [Vector2d.add_def]

theorem drop_length_sub_one {α : Type} :
    ∀ (l : List α), l ≠ [] → ∃ z, l.drop (l.length - 1) = [z] := by
  intro l
  induction l with
  | nil => intro h; exact absurd rfl h
  | cons x t ih =>
    intro _
    cases t with
    | nil => exact ⟨x, rfl⟩
    | cons y s =>
      obtain ⟨z, hz⟩ := ih (by simp)
      refine ⟨z, ?_⟩
      have hlen : (x :: y :: s).length - 1 = s.length + 1 := by simp
      rw [hlen, List.drop_succ_cons]
      simpa using hz

theorem rotateRight1_set {α : Type} (l : List α) (h : l ≠ []) (a : α) :
    (rotateRight1 l).set 0 a = a :: l.dropLast := by
  obtain ⟨z, hz⟩ := drop_length_sub_one l h
  rw [rotateRight1, hz, ← List.dropLast_eq_take]
  rfl

theorem shiftedBody_cons {w : World} (h : w.snake_body ≠ []) :
    shiftedBody w = w.snake_head :: w.snake_body.dropLast := by
  rw [shiftedBody, if_neg h, rotateRight1_set _ h]

theorem shiftedBody_eq (w : World) :
    shiftedBody w = followLeaderShift w.snake_head w.snake_body := by
  by_cases h : w.snake_body = []
  · rw [shiftedBody, if_pos h, h, followLeaderShift]
    simp
  · rw [shiftedBody_cons h, followLeaderShift]
    obtain ⟨b, t, hbt⟩ := List.exists_cons_of_ne_nil h
    rw [hbt]
    simp [List.dropLast_eq_take]

theorem shiftedBody_length (w : World) :
    (shiftedBody w).length = w.snake_body.length := by
  rw [shiftedBody_eq, followLeaderShift, List.length_take]
  simp

theorem mem_shiftedBody {w : World} {v : Vector2d} (hv : v ∈ shiftedBody w) :
    v = w.snake_head ∨ v ∈ w.snake_body := by
  by_cases h : w.snake_body = []
  · rw [shiftedBody, if_pos h, h] at hv
    simp at hv
  · rw [shiftedBody_cons h] at hv
    rcases List.mem_cons.mp hv with h1 | h1
    · exact Or.inl h1
    · exact Or.inr (List.mem_of_mem_dropLast h1)

theorem random_pos_bound (r : Rng) :
    0 ≤ (random_pos r).1 ∧ (random_pos r).1 < (FIELD_SIZE : Int) := by
  have h : r.gen.1 % FIELD_SIZE < FIELD_SIZE := Nat.mod_lt _ (by decide)
  have he : (random_pos r).1 = ((r.gen.1 % FIELD_SIZE : Nat) : Int) := rfl
  rw [he]
  constructor
  · exact Int.natCast_nonneg _
  · exact_mod_cast h

theorem create_fruit_spec :
    ∀ (fuel : Nat) (head : Vector2d) (body : List Vector2d) (r : Rng)
      (f : Vector2d) (r' : Rng), create_fruit fuel head body r = some (f, r') →
      f ≠ head ∧ f ∉ body ∧ inField f := by
  intro fuel
  induction fuel with
  | zero => intro head body r f r' h; simp [create_fruit] at h
  | succ n ih =>
    intro head body r f r' h
    simp only [create_fruit] at h
    split at h
    · exact ih _ _ _ _ _ h
    · rename_i hcond
      push_neg at hcond
      simp only [Option.some.injEq, Prod.mk.injEq] at h
      obtain ⟨h1, h2⟩ := h
      subst h1
      refine ⟨hcond.1, hcond.2, ?_⟩
      exact ⟨⟨(random_pos_bound r).1, (random_pos_bound r).2⟩,
        ⟨(random_pos_bound (random_pos r).2).1, (random_pos_bound (random_pos r).2).2⟩⟩

theorem update_idle {w : World} {fuel : Nat} (h : w.dir = ⟨0, 0⟩) :
    w.update fuel = some (w, false, false) := by
  simp only [World.update, if_pos h]

/-- Full case analysis of a successful `World::update` call. -/
theorem update_some_cases {w : World} {fuel : Nat} {w' : World} {rd ex : Bool}
    (h : w.update fuel = some (w', rd, ex)) :
    (w.dir = ⟨0, 0⟩ ∧ w' = w ∧ rd = false ∧ ex = false) ∨
    (w.dir ≠ ⟨0, 0⟩ ∧ rd = true ∧ w'.snake_head = w.snake_head + w.dir ∧
      w'.dir = w.dir ∧
      ex = decide (¬ inField w'.snake_head ∨ w'.snake_head ∈ w'.snake_body) ∧
      ((w.snake_head + w.dir ≠ w.fruit ∧ w'.snake_body = shiftedBody w ∧
         w'.fruit = w.fruit ∧ w'.rng = w.rng) ∨
       (w.snake_head + w.dir = w.fruit ∧
         w'.snake_body = shiftedBody w ++
           [(shiftedBody w).getLast?.getD (w.snake_head + w.dir) + ⟨-w.dir.x, -w.dir.y⟩] ∧
         create_fruit fuel (w.snake_head + w.dir) w'.snake_body w.rng =
           some (w'.fruit, w'.rng)))) := by
  by_cases hd : w.dir = ⟨0, 0⟩
  · rw [update_idle hd] at h
    simp only [Option.some.injEq, Prod.mk.injEq] at h
    exact Or.inl ⟨hd, h.1.symm, h.2.1.symm, h.2.2.symm⟩
  · by_cases hg : w.snake_head + w.dir = w.fruit
    · simp only [World.update, if_neg hd, if_pos hg] at h
      cases hcf : create_fruit fuel (w.snake_head + w.dir)
          (shiftedBody w ++
            [(shiftedBody w).getLast?.getD (w.snake_head + w.dir) + ⟨-w.dir.x, -w.dir.y⟩])
          w.rng with
      | none => rw [hcf] at h; simp at h
      | some fr =>
        rw [hcf] at h
        simp only [Option.some.injEq, Prod.mk.injEq] at h
        obtain ⟨hw', hrd, hex⟩ := h
        subst hw'
        refine Or.inr ⟨hd, hrd.symm, rfl, rfl, hex.symm, Or.inr ⟨hg, rfl, ?_⟩⟩
        rw [hcf]
    · simp only [World.update, if_neg hd, if_neg hg] at h
      simp only [Option.some.injEq, Prod.mk.injEq] at h
      obtain ⟨hw', hrd, hex⟩ := h
      subst hw'
      exact Or.inr ⟨hd, hrd.symm, rfl, rfl, hex.symm, Or.inl ⟨hg, rfl, rfl, rfl⟩⟩

/-! ### The fruit invariant -/

theorem fruitInv_step {fuel : Nat} {w w' : World} {e : Ev}
    (hw : FruitInv w) (h : step fuel w e = some w') : FruitInv w' := by
  cases e with
  | key k =>
    simp only [step, Option.some.injEq] at h
    subst h
    exact hw
  | tick =>
    simp only [step, Option.map_eq_some'] at h
    obtain ⟨⟨w2, rd, ex⟩, hu, hp⟩ := h
    cases hp
    rcases update_some_cases hu with ⟨_, rfl, _, _⟩ | ⟨_, _, hh, _, _, hcase⟩
    · exact hw
    · rcases hcase with ⟨hng, hb, hf, _⟩ | ⟨_, _, hcf⟩
      · refine ⟨?_, ?_, ?_⟩
        · rw [hf, hh]
          exact fun hEq => hng hEq.symm
        · rw [hf, hb]
          intro hm
          rcases mem_shiftedBody hm with h1 | h1
          · exact hw.1 h1
          · exact hw.2.1 h1
        · rw [hf]
          exact hw.2.2
      · have hs := create_fruit_spec _ _ _ _ _ _ hcf
        refine ⟨?_, hs.2.1, hs.2.2⟩
        rw [hh]
        exact hs.1

theorem new_fruitInv {fuel : Nat} {r : Rng} {w : World}
    (h : World.new fuel r = some w) : FruitInv w := by
  simp only [World.new] at h
  split at h
  · exact absurd h (by simp)
  · rename_i fr hcf
    simp only [Option.some.injEq] at h
    subst h
    have hs := create_fruit_spec _ _ _ _ _ _ hcf
    exact ⟨hs.1, hs.2.1, hs.2.2⟩

theorem run_fruitInv {fuel : Nat} :
    ∀ {evs : List Ev} {w w' : World}, FruitInv w → run fuel w evs = some w' →
      FruitInv w' := by
  intro evs
  induction evs with
  | nil =>
    intro w w' hw h
    simp only [run, Option.some.injEq] at h
    subst h
    exact hw
  | cons e es ih =>
    intro w w' hw h
    simp only [run, Option.bind_eq_some] at h
    obtain ⟨w1, h1, h2⟩ := h
    exact ih (fruitInv_step hw h1) h2

/-! ### The alive-state invariant -/

theorem shiftedBody_field_nodup {w : World} (hw : AliveInv w) :
    (∀ v ∈ shiftedBody w, inField v) ∧ (shiftedBody w).Nodup := by
  by_cases h : w.snake_body = []
  · rw [shiftedBody, if_pos h, h]
    exact ⟨by simp, List.nodup_nil⟩
  · rw [shiftedBody_cons h]
    refine ⟨?_, ?_⟩
    · intro v hv
      rcases List.mem_cons.mp hv with h1 | h1
      · rw [h1]; exact hw.1
      · exact hw.2.2.1 v h1
    · refine List.nodup_cons.mpr ⟨?_, hw.2.2.2⟩
      exact fun hm => hw.2.1 (List.mem_of_mem_dropLast hm)

theorem aliveInv_step {fuel : Nat} {w w' : World} {e : Ev}
    (hw : AliveInv w) (h : stepAlive fuel w e = some w') : AliveInv w' := by
  cases e with
  | key k =>
    simp only [stepAlive, Option.some.injEq] at h
    subst h
    exact hw
  | tick =>
    simp only [stepAlive] at h
    cases hu : w.update fuel with
    | none => rw [hu] at h; simp at h
    | some p =>
      rw [hu] at h
      by_cases hex : p.2.2 = true
      · simp [hex] at h
      · simp only [hex, if_neg, Bool.false_eq_true, if_false, Option.some.injEq] at h
        subst h
        obtain ⟨w2, rd, ex⟩ := p
        simp only at hex
        rcases update_some_cases hu with ⟨_, rfl, _, _⟩ | ⟨_, _, hh, _, hexd, hcase⟩
        · exact hw
        · have hexf : ex = false := by
            cases hb : ex
            · rfl
            · exact absurd hb hex
          rw [hexf] at hexd
          have hok : inField w2.snake_head ∧ w2.snake_head ∉ w2.snake_body := by
            have := of_decide_eq_false hexd.symm
            push_neg at this
            exact ⟨this.1, this.2⟩
          have hsb := shiftedBody_field_nodup hw
          rcases hcase with ⟨_, hb, _, _⟩ | ⟨_, hb, _⟩
          · refine ⟨hok.1, hok.2, ?_, ?_⟩
            · intro v hv
              exact hsb.1 v (hb ▸ List.mem_of_mem_dropLast hv)
            · exact List.Nodup.sublist (List.dropLast_sublist _) (hb ▸ hsb.2)
          · refine ⟨hok.1, hok.2, ?_, ?_⟩
            · intro v hv
              rw [hb, List.dropLast_concat] at hv
              exact hsb.1 v hv
            · rw [hb, List.dropLast_concat]
              exact hsb.2

theorem new_aliveInv {fuel : Nat} {r : Rng} {w : World}
    (h : World.new fuel r = some w) : AliveInv w := by
  simp only [World.new] at h
  split at h
  · exact absurd h (by simp)
  · simp only [Option.some.injEq] at h
    subst h
    refine ⟨?_, by simp, by simp, by simp⟩
    show inField ⟨(FIELD_SIZE : Int) / 2, (FIELD_SIZE : Int) / 2⟩
    decide

theorem runAlive_aliveInv {fuel : Nat} :
    ∀ {evs : List Ev} {w w' : World}, AliveInv w → runAlive fuel w evs = some w' →
      AliveInv w' := by
  intro evs
  induction evs with
  | nil =>
    intro w w' hw h
    simp only [runAlive, Option.some.injEq] at h
    subst h
    exact hw
  | cons e es ih =>
    intro w w' hw h
    simp only [runAlive, Option.bind_eq_some] at h
    obtain ⟨w1, h1, h2⟩ := h
    exact ih (aliveInv_step hw h1) h2

/-! ### Claim C1: the fruit invariant on reachable states -/

/-- C1: for every state reachable from `World::new` by any sequence of
`input` (handle_direction_input) and `update` (advance_tick) calls, the fruit
cell is never equal to the head cell and never equal to any body cell. -/
theorem fruit_invariant (w : World) (h : Reachable w) :
    w.fruit ≠ w.snake_head ∧ w.fruit ∉ w.snake_body := by
  obtain ⟨seed, fuel, evs, hrun⟩ := h
  simp only [runFrom, Option.bind_eq_some] at hrun
  obtain ⟨w0, h0, hr⟩ := hrun
  have hinv := run_fruitInv (new_fruitInv h0) hr
  exact ⟨hinv.1, hinv.2.1⟩

theorem fruit_invariant_witness :
    w0c.fruit ≠ w0c.snake_head ∧ w0c.fruit ∉ w0c.snake_body :=
  fruit_invariant w0c ⟨0, 1000, [], by decide⟩

/-! ### Claim C10: the fruit lies inside the field -/

/-- C10: in every reachable state the fruit cell lies within
`[0, FIELD_SIZE)` on both axes (each coordinate comes from `gen() % FIELD_SIZE`
and `gen` returns a value below `2^31`). -/
theorem fruit_in_field (w : World) (h : Reachable w) : inField w.fruit := by
  obtain ⟨seed, fuel, evs, hrun⟩ := h
  simp only [runFrom, Option.bind_eq_some] at hrun
  obtain ⟨w0, h0, hr⟩ := hrun
  exact (run_fruitInv (new_fruitInv h0) hr).2.2

theorem fruit_in_field_witness : inField w0c.fruit :=
  fruit_in_field w0c ⟨0, 1000, [], by decide⟩

/-! ### Claim C2: bounds and distinctness of the snake cells while alive

The claim as stated is false: the growth segment `update` appends behind the
tail can lie outside the field (when the tail sits on the boundary and the
heading points away from it) and can coincide with an existing body cell (when
the snake is coiled so that the cell behind the tail, opposite to the current
heading, is occupied).  Both are exhibited on concrete reachable alive states
below; the amended invariant restricts the bounds/distinctness part to all body
cells except possibly the last one. -/

/-- C2 counterexample: an alive reachable state whose body contains the
out-of-field cell `(13, 20)`, and an alive reachable state whose body cells are
not pairwise distinct — refuting both the bounds and the distinctness part of
the claim. -/
theorem alive_bounds_counterexample :
    AliveReachable cOOB ∧ (⟨13, 20⟩ : Vector2d) ∈ cOOB.snake_body ∧
    ¬ inField (⟨13, 20⟩ : Vector2d) ∧
    AliveReachable cDup ∧ ¬ cDup.snake_body.Nodup :=
  ⟨⟨2, 1000, evsOOB, by decide⟩, by decide, by decide,
   ⟨1, 1000, evsDup, by decide⟩, by decide⟩

/-- C2 (amended): in every reachable state in which the game is still alive,
the head lies within `[0, FIELD_SIZE)` on both axes and differs from every body
cell, and every body cell except possibly the last one (the most recently
appended growth segment) lies within the field, those cells being pairwise
distinct. -/
theorem alive_invariant (w : World) (h : AliveReachable w) :
    inField w.snake_head ∧ w.snake_head ∉ w.snake_body ∧
    (∀ v ∈ w.snake_body.dropLast, inField v) ∧ w.snake_body.dropLast.Nodup := by
  obtain ⟨seed, fuel, evs, hrun⟩ := h
  simp only [runAliveFrom, Option.bind_eq_some] at hrun
  obtain ⟨w0, h0, hr⟩ := hrun
  exact runAlive_aliveInv (new_aliveInv h0) hr

theorem alive_invariant_witness :
    inField w0c.snake_head ∧ w0c.snake_head ∉ w0c.snake_body ∧
    (∀ v ∈ w0c.snake_body.dropLast, inField v) ∧ w0c.snake_body.dropLast.Nodup :=
  alive_invariant w0c ⟨0, 1000, [], by decide⟩

/-! ### Claim C3: the growth law -/

/-- C3: on every tick whose post-move head equals the fruit, the body length
grows by exactly one; the appended segment sits one step behind the current
(post-shift) tail, opposite to the direction of travel — behind the head when
the body was empty, i.e. on the pre-move head cell — and the new fruit again
satisfies the fruit invariant. -/
theorem growth_law (fuel : Nat) (w w' : World) (rd ex : Bool)
    (hd : w.dir ≠ ⟨0, 0⟩) (hg : w.snake_head + w.dir = w.fruit)
    (h : w.update fuel = some (w', rd, ex)) :
    w'.snake_body.length = w.snake_body.length + 1 ∧
    w'.snake_body.dropLast = followLeaderShift w.snake_head w.snake_body ∧
    w'.snake_body.getLast? =
      some ((followLeaderShift w.snake_head w.snake_body).getLast?.getD
        (w.snake_head + w.dir) + ⟨-w.dir.x, -w.dir.y⟩) ∧
    (w.snake_body = [] → w'.snake_body = [w.snake_head]) ∧
    w'.fruit ≠ w'.snake_head ∧ w'.fruit ∉ w'.snake_body := by
  rcases update_some_cases h with ⟨h0, _⟩ | ⟨_, _, hh, _, _, hcase⟩
  · exact absurd h0 hd
  rcases hcase with ⟨hng, _⟩ | ⟨_, hb, hcf⟩
  · exact absurd hg hng
  have hs := create_fruit_spec _ _ _ _ _ _ hcf
  refine ⟨?_, ?_, ?_, ?_, ?_, hs.2.1⟩
  · rw [hb, List.length_append, shiftedBody_length]
    simp
  · rw [hb, List.dropLast_concat, shiftedBody_eq]
  · rw [hb, List.getLast?_concat, shiftedBody_eq]
  · intro hbe
    have hsb : shiftedBody w = [] := by rw [shiftedBody, if_pos hbe, hbe]
    rw [hb, hsb]
    simp only [List.nil_append, List.getLast?_nil, Option.getD_none]
    rw [add_dir_sub_dir]
  · rw [hh]
    exact hs.1

theorem growth_law_witness :
    w3.dir ≠ (⟨0, 0⟩ : Vector2d) ∧ w3.snake_head + w3.dir = w3.fruit ∧
    ((w3.update 1000).getD (wDef, false, false)).1.snake_body.length =
      w3.snake_body.length + 1 :=
  ⟨by decide, by decide,
   (growth_law 1000 w3 ((w3.update 1000).getD (wDef, false, false)).1
      ((w3.update 1000).getD (wDef, false, false)).2.1
      ((w3.update 1000).getD (wDef, false, false)).2.2
      (by decide) (by decide) (by decide)).1⟩

/-! ### Claim C6: the body shift refines the follow-the-leader shift -/

/-- C6: on every tick with a non-empty body and a non-zero heading and no
growth, the rotate-right-and-overwrite body shift equals the reference
follow-the-leader shift: the first body segment becomes the pre-tick head and
every other segment takes the position the segment ahead of it occupied before
the tick, the pre-tick tail position being dropped. -/
theorem body_shift_refines (fuel : Nat) (w w' : World) (rd ex : Bool)
    (hb : w.snake_body ≠ []) (hd : w.dir ≠ ⟨0, 0⟩)
    (hng : w.snake_head + w.dir ≠ w.fruit)
    (h : w.update fuel = some (w', rd, ex)) :
    w'.snake_body = followLeaderShift w.snake_head w.snake_body ∧
    w'.snake_body.length = w.snake_body.length ∧
    w'.snake_body.head? = some w.snake_head ∧
    ∀ i : Nat, i + 1 < w'.snake_body.length →
      w'.snake_body[i + 1]? = w.snake_body[i]? := by
  rcases update_some_cases h with ⟨h0, _⟩ | ⟨_, _, _, _, _, hcase⟩
  · exact absurd h0 hd
  rcases hcase with ⟨_, hbody, _, _⟩ | ⟨hg, _⟩
  swap
  · exact absurd hg hng
  have hsb : w'.snake_body = w.snake_head :: w.snake_body.dropLast := by
    rw [hbody, shiftedBody_cons hb]
  have hlen : w'.snake_body.length = w.snake_body.length := by
    rw [hbody, shiftedBody_length]
  refine ⟨by rw [hbody, shiftedBody_eq], hlen, by rw [hsb]; rfl, ?_⟩
  intro i hi
  rw [hlen] at hi
  rw [hsb, List.getElem?_cons_succ, List.dropLast_eq_take, List.getElem?_take]
  rw [if_pos (by omega)]

theorem body_shift_refines_witness :
    w6.snake_body ≠ [] ∧ w6.dir ≠ (⟨0, 0⟩ : Vector2d) ∧
    w6.snake_head + w6.dir ≠ w6.fruit ∧
    ((w6.update 1000).getD (wDef, false, false)).1.snake_body =
      followLeaderShift w6.snake_head w6.snake_body :=
  ⟨by decide, by decide, by decide,
   (body_shift_refines 1000 w6 ((w6.update 1000).getD (wDef, false, false)).1
      ((w6.update 1000).getD (wDef, false, false)).2.1
      ((w6.update 1000).getD (wDef, false, false)).2.2
      (by decide) (by decide) (by decide) (by decide)).1⟩

/-! ### Claim C7: the termination law -/

/-- C7: on every tick with a non-zero heading, termination is signalled exactly
when the post-move head lies outside the field or coincides with a cell of the
resulting body, and the tick reports that a redraw is needed regardless of
termination. -/
theorem termination_law (fuel : Nat) (w w' : World) (rd ex : Bool)
    (hd : w.dir ≠ ⟨0, 0⟩) (h : w.update fuel = some (w', rd, ex)) :
    rd = true ∧
    (ex = true ↔ (¬ inField w'.snake_head ∨ w'.snake_head ∈ w'.snake_body)) := by
  rcases update_some_cases h with ⟨h0, _⟩ | ⟨_, hrd, _, _, hex, _⟩
  · exact absurd h0 hd
  refine ⟨hrd, ?_⟩
  rw [hex]
  exact decide_eq_true_iff

theorem termination_law_witness :
    w7.dir ≠ (⟨0, 0⟩ : Vector2d) ∧
    ((w7.update 1000).getD (wDef, false, false)).2.1 = true :=
  ⟨by decide,
   (termination_law 1000 w7 ((w7.update 1000).getD (wDef, false, false)).1
      ((w7.update 1000).getD (wDef, false, false)).2.1
      ((w7.update 1000).getD (wDef, false, false)).2.2
      (by decide) (by decide)).1⟩

/-! ### Claim C8: idle ticks are no-ops -/

/-- C8: whenever the heading is `(0,0)`, `update` leaves the whole state (head,
body, fruit and generator) unchanged and returns no-redraw and no-termination. -/
theorem idle_noop (fuel : Nat) (w : World) (h : w.dir = ⟨0, 0⟩) :
    w.update fuel = some (w, false, false) := update_idle h

theorem idle_noop_witness :
    w0c.dir = (⟨0, 0⟩ : Vector2d) ∧ w0c.update 1000 = some (w0c, false, false) :=
  ⟨by decide, idle_noop 1000 w0c (by decide)⟩

/-! ### Claim C4: the linear-congruential generator -/

/-- C4: one `gen` call maps the state `s` to `(1103515245 * s + 12345) mod 2^31`
in exact integer arithmetic (the `u32` wrapping operations followed by
`% 2^31` realise this), stores that new state and returns it; consequently two
generators holding the same state produce the same sequence of values. -/
theorem rng_lcg (r r1 r2 : Rng) (n : Nat) (h : r1.last = r2.last) :
    (r.gen).1 = (1103515245 * r.last + 12345) % 2 ^ 31 ∧
    (r.gen).2 = Rng.mk ((1103515245 * r.last + 12345) % 2 ^ 31) ∧
    genSeq n r1 = genSeq n r2 := by
  have key : ∀ s : Nat, (1103515245 * s % 2 ^ 32 + 12345) % 2 ^ 32 % 2 ^ 31
      = (1103515245 * s + 12345) % 2 ^ 31 := by
    intro s
    rw [Nat.mod_add_mod]
    exact Nat.mod_mod_of_dvd _ (by norm_num)
  have hr12 : r1 = r2 := by
    cases r1
    cases r2
    simpa using h
  subst hr12
  refine ⟨key r.last, ?_, rfl⟩
  show Rng.mk ((1103515245 * r.last % 2 ^ 32 + 12345) % 2 ^ 32 % Rng.MODULE) = _
  rw [Rng.MODULE, key r.last]

theorem rng_lcg_witness :
    (Rng.mk 42).last = (Rng.new 42).last ∧
    genSeq 3 (Rng.mk 42) = genSeq 3 (Rng.new 42) :=
  ⟨by decide, (rng_lcg (Rng.mk 7) (Rng.mk 42) (Rng.new 42) 3 (by decide)).2.2⟩

/-! ### Claim C5: the tick scheduler

The claim as stated is false on two counts.  First, `elapsed` measures from the
last *fired* tick, so two polls less than 100ms apart can report NotDue and
then Due.  Second, the comparison is strict (`since_last > frame_duration`), so
two polls separated by exactly 100ms leave the second NotDue, against the
claim's "separated by ≥ 100ms".  The amended statement characterises Due by the
strict comparison against the time of the last fired tick. -/

/-- C5 counterexample: with `ticks_per_second = 10` (period exactly 100ms), a
scheduler created at t = 0 polled at 60ms and then at 120ms — two successive
polls separated by less than 100ms — reports NotDue then Due, refuting "both
report NotDue"; and polled at 0ms and then at 100ms — separated by exactly
100ms, hence ≥ 100ms — the second poll reports NotDue, refuting "the second
reports Due". -/
theorem scheduler_pacing_counterexample :
    ((Snake.Interval.new 0).elapsed 60000000).1 = false ∧
    ((((Snake.Interval.new 0).elapsed 60000000).2.1).elapsed 120000000).1 = true ∧
    ((Snake.Interval.new 0).elapsed 0).1 = false ∧
    ((((Snake.Interval.new 0).elapsed 0).2.1).elapsed 100000000).1 = false :=
  ⟨by decide, by decide, by decide, by decide⟩

/-- C5 (amended): a poll reports Due exactly when the time since `last` (the
last fired tick or creation) strictly exceeds `frame_duration`, resetting
`last` to now as a side effect; otherwise it reports NotDue, leaves the
scheduler unchanged and requests a wake at now plus the remaining time.  Hence,
after a Due poll at time `now`, a second poll reports Due exactly when the
separation strictly exceeds the period (100ms for `ticks_per_second = 10`). -/
theorem scheduler_poll (i : Snake.Interval) (now : Nat) (_h : i.last ≤ now) :
    (((i.elapsed now).1 = true) ↔ i.frame_duration < now - i.last) ∧
    ((i.elapsed now).1 = true →
      (i.elapsed now).2.1 = { i with last := now } ∧ (i.elapsed now).2.2 = none) ∧
    ((i.elapsed now).1 = false →
      (i.elapsed now).2.1 = i ∧
      (i.elapsed now).2.2 = some (now + (i.frame_duration - (now - i.last)))) ∧
    (∀ t2 : Nat, (i.elapsed now).1 = true →
      (((i.elapsed now).2.1.elapsed t2).1 = true ↔ i.frame_duration < t2 - now)) := by
  by_cases hc : i.frame_duration < now - i.last
  · constructor
    · simp [Snake.Interval.elapsed, hc]
    constructor
    · intro _
      constructor <;> simp [Snake.Interval.elapsed, hc]
    constructor
    · intro hfalse
      rw [show (i.elapsed now).1 = true by simp [Snake.Interval.elapsed, hc]] at hfalse
      cases hfalse
    · intro t2 _
      have h21 : (i.elapsed now).2.1 = { i with last := now } := by
        simp [Snake.Interval.elapsed, hc]
      rw [h21]
      by_cases hc2 : i.frame_duration < t2 - now
      · simp [Snake.Interval.elapsed, hc2]
      · simp [Snake.Interval.elapsed, hc2]
  · constructor
    · simp [Snake.Interval.elapsed, hc]
    constructor
    · intro htrue
      rw [show (i.elapsed now).1 = false by simp [Snake.Interval.elapsed, hc]] at htrue
      cases htrue
    constructor
    · intro _
      constructor <;> simp [Snake.Interval.elapsed, hc]
    · intro t2 htrue
      rw [show (i.elapsed now).1 = false by simp [Snake.Interval.elapsed, hc]] at htrue
      cases htrue

theorem scheduler_poll_witness :
    (Snake.Interval.new 0).last ≤ 150000000 ∧
    ((Snake.Interval.new 0).elapsed 150000000).1 = true :=
  ⟨by decide,
   ((scheduler_poll (Snake.Interval.new 0) 150000000 (by decide)).1).mpr (by decide)⟩

/-! ### Claim C9: determinism -/

/-- C9: the whole evolution is a deterministic function of the seed and the
event sequence: two sessions created from equal seeds and fed the same events
produce identical head/body/fruit trajectories. -/
theorem determinism (seed fuel : Nat) (evs : List Ev) (w1 w2 : World)
    (h1 : World.new fuel (Rng.new seed) = some w1)
    (h2 : World.new fuel (Rng.new seed) = some w2) :
    traj fuel w1 evs = traj fuel w2 evs := by
  rw [h1] at h2
  injection h2 with h3
  rw [h3]

theorem determinism_witness :
    World.new 1000 (Rng.new 0) = some w0c ∧
    traj 1000 w0c [Ev.tick, Ev.key Key.keyRight, Ev.tick] =
      traj 1000 w0c [Ev.tick, Ev.key Key.keyRight, Ev.tick] :=
  ⟨by decide,
   determinism 0 1000 [Ev.tick, Ev.key Key.keyRight, Ev.tick] w0c w0c
     (by decide) (by decide)⟩
